import Mathlib

/-!
# softstat — shallow embedding of the limit-pressure evaluator

This file models the pure core of the softstat utility: the percentage
computation and binding-constraint selection in `CalcBound`
(softstat.go), the effective-ceiling resolution through the binary
`min` over uint64 ceilings (softstat.go), and the ranking of output
entries through Go's `sort.Slice` with the comparator
`out[i].bound.p > out[j].bound.p` (softstat.go).

Modelling conventions:
* `uint64` values are `Nat`; the program performs no wrapping
  arithmetic on them (only comparisons, division after conversion to
  float, and counting), so no modular reduction is needed.  The
  "unlimited" sentinel `math.MaxUint64` is the constant `UNLIMITED`.
* `float64` percentages are modelled as exact rationals (`ℚ`).  On
  every concrete value used in the theorems below the float64
  computation of the source is exact, so model and source agree there.
* `sort.Slice` of the Go releases contemporary with this repository
  (Go 1.8 through 1.18, package sort: insertionSort, siftDown,
  heapSort, medianOfThree, doPivot, quickSort, maxDepth) is translated
  function by function.  Index-moving `for` loops become recursion on
  a `Nat` that bounds the remaining trip count (the bound is generous;
  the loops of the source always stop earlier by their own tests, so
  the translation computes the same result), and the in-place slice
  becomes a `List` threaded through the calls.
-/

/-- math.MaxUint64, the sentinel that denotes an unlimited ceiling
(printed as "-1" by the source). -/
def UNLIMITED : Nat := 18446744073709551615

/-- Entry from softstat.go: one usage/ceiling observation, fields
`v` (current usage) and `max` (applicable limit), both uint64. -/
structure Entry where
  v : Nat
  max : Nat
deriving DecidableEq, Repr, Inhabited

/-- Boundary from softstat.go: the selected binding constraint.  The
source's field `by` (a Lean keyword) is rendered `byName`. -/
structure Boundary where
  byName : String
  v : Nat
  max : Nat
  p : ℚ
deriving DecidableEq, Repr, Inhabited

/-- Metric from softstat.go: a named usage/ceiling observation.  The
source also stores an untyped callback `f` used only by the I/O layer
to populate `res`; the evaluator reads just `name` and `res`, so the
callback is outside the pure core modelled here. -/
structure Metric where
  name : String
  res : Entry
deriving DecidableEq, Repr, Inhabited

/-- OutputEntry from softstat.go: one row of the report. -/
structure OutputEntry where
  pid : String
  data : List Metric
  bound : Boundary
  cmd : String
deriving DecidableEq, Repr, Inhabited

/-- The percentage computed inside CalcBound's loop (softstat.go):
`if m[i].res.max <= 0 { p = 100.0 } else { p = 100.0 * float64(v) / float64(max) }`.
`max` is uint64, so the `<= 0` test is a zero test. -/
def pct (e : Entry) : ℚ :=
  if e.max ≤ 0 then 100 else 100 * (e.v : ℚ) / (e.max : ℚ)

/-- The fields CalcBound copies from the winning metric:
`b.p, b.by, b.v, b.max = p, m[i].name, m[i].res.v, m[i].res.max`. -/
def boundOf (x : Metric) : Boundary := ⟨x.name, x.res.v, x.res.max, pct x.res⟩

/-- One iteration of CalcBound's loop: update the running boundary
when the metric's percentage strictly exceeds the best seen (`p > b.p`). -/
def calcStep (b : Boundary) (x : Metric) : Boundary :=
  if pct x.res > b.p then boundOf x else b

/-- CalcBound from softstat.go.  The Go zero value of `Boundary` has
empty name and zero numeric fields, and the function sets `b.p = -1.0`
before the scan. -/
def CalcBound (m : List Metric) : Boundary := m.foldl calcStep ⟨"", 0, 0, -1⟩

/-- min over uint64 from softstat.go:
`func min(p1, p2 uint64) uint64 { if p1 < p2 { return p1 }; return p2 }`. -/
def minGo (p1 p2 : Nat) : Nat := if p1 < p2 then p1 else p2

/-- Effective-ceiling resolution as the source uses it:
left-nested binary mins, e.g. `min(min(limits.openFiles.Cur, fileMax), filePerProcMax)`
(softstat.go), i.e. a left fold of `minGo` over the ceiling sequence. -/
def resolveEffectiveCeiling (c : Nat) (cs : List Nat) : Nat := cs.foldl minGo c

/-! ## Go's sort.Slice (package sort, Go 1.8–1.18), on lists -/

/-- Read a slice element; the source never indexes out of bounds. -/
def lget {α : Type} [Inhabited α] (l : List α) (i : Nat) : α := l.getD i default

/-- data.Swap(i, j) of sort.Slice: exchange the elements at `i` and `j`
(simultaneously, from the state before the call). -/
def lswap {α : Type} (l : List α) (i j : Nat) : List α :=
  if h : i < l.length ∧ j < l.length then
    (l.set i (l.get ⟨j, h.2⟩)).set j (l.get ⟨i, h.1⟩)
  else l

/-- insertionSort's inner loop (package sort):
`for j := i; j > a && data.Less(j, j-1); j-- { data.Swap(j, j-1) }`.
Recursion is on `j` itself, which the loop decrements. -/
def sinkGo {α : Type} [Inhabited α] (less : α → α → Bool) (a : Nat) :
    List α → Nat → List α
  | l, 0 => l
  | l, j + 1 =>
    if j + 1 > a ∧ less (lget l (j + 1)) (lget l j) then
      sinkGo less a (lswap l (j + 1) j) j
    else l

/-- insertionSort's outer loop (package sort):
`for i := a+1; i < b; i++ { inner loop }`.  The last argument bounds
the remaining trips (the loop runs `b - i` times). -/
def insertLoopGo {α : Type} [Inhabited α] (less : α → α → Bool) (a b : Nat) :
    List α → Nat → Nat → List α
  | l, _, 0 => l
  | l, i, k + 1 =>
    if i < b then insertLoopGo less a b (sinkGo less a l i) (i + 1) k else l

/-- insertionSort(data, a, b) from package sort. -/
def insertionSortGo {α : Type} [Inhabited α] (less : α → α → Bool)
    (l : List α) (a b : Nat) : List α :=
  insertLoopGo less a b l (a + 1) b

/-- The ShellSort pass with gap 6 that quickSort runs on ranges of at
most 12 elements (package sort):
`for i := a+6; i < b; i++ { if data.Less(i, i-6) { data.Swap(i, i-6) } }`. -/
def shellLoopGo {α : Type} [Inhabited α] (less : α → α → Bool) (b : Nat) :
    List α → Nat → Nat → List α
  | l, _, 0 => l
  | l, i, k + 1 =>
    if i < b then
      shellLoopGo less b
        (if less (lget l i) (lget l (i - 6)) then lswap l i (i - 6) else l)
        (i + 1) k
    else l

/-- medianOfThree(data, m1, m0, m2) from package sort. -/
def medianOfThreeGo {α : Type} [Inhabited α] (less : α → α → Bool)
    (l : List α) (m1 m0 m2 : Nat) : List α :=
  let l1 := if less (lget l m1) (lget l m0) then lswap l m1 m0 else l
  if less (lget l1 m2) (lget l1 m1) then
    let l2 := lswap l1 m2 m1
    if less (lget l2 m1) (lget l2 m0) then lswap l2 m1 m0 else l2
  else l1

/-- doPivot's first scan (package sort):
`for ; a < c && data.Less(a, pivot); a++ { }`; also the identical scan
`for ; a < b && data.Less(a, pivot); a++` of the protect phase. -/
def advALoop {α : Type} [Inhabited α] (less : α → α → Bool)
    (l : List α) (pv c : Nat) : Nat → Nat → Nat
  | a, 0 => a
  | a, k + 1 =>
    if a < c ∧ less (lget l a) (lget l pv) then advALoop less l pv c (a + 1) k
    else a

/-- doPivot's forward partition scan (package sort):
`for ; b < c && !data.Less(pivot, b); b++ { }`. -/
def advBLoop {α : Type} [Inhabited α] (less : α → α → Bool)
    (l : List α) (pv c : Nat) : Nat → Nat → Nat
  | b, 0 => b
  | b, k + 1 =>
    if b < c ∧ ¬ less (lget l pv) (lget l b) then advBLoop less l pv c (b + 1) k
    else b

/-- doPivot's backward partition scan (package sort):
`for ; b < c && data.Less(pivot, c-1); c-- { }`. -/
def retCLoop {α : Type} [Inhabited α] (less : α → α → Bool)
    (l : List α) (pv b : Nat) : Nat → Nat → Nat
  | c, 0 => c
  | c, k + 1 =>
    if b < c ∧ less (lget l pv) (lget l (c - 1)) then retCLoop less l pv b (c - 1) k
    else c

/-- doPivot's backward scan of the protect phase (package sort):
`for ; a < b && !data.Less(b-1, pivot); b-- { }`. -/
def retBLoop {α : Type} [Inhabited α] (less : α → α → Bool)
    (l : List α) (pv a : Nat) : Nat → Nat → Nat
  | b, 0 => b
  | b, k + 1 =>
    if a < b ∧ ¬ less (lget l (b - 1)) (lget l pv) then retBLoop less l pv a (b - 1) k
    else b

/-- doPivot's main partition loop (package sort): advance `b`, retreat
`c`, stop when they meet, otherwise `data.Swap(b, c-1); b++; c--`. -/
def partLoopGo {α : Type} [Inhabited α] (less : α → α → Bool) (pv : Nat) :
    List α → Nat → Nat → Nat → List α × Nat × Nat
  | l, b, c, 0 => (l, b, c)
  | l, b, c, k + 1 =>
    let b1 := advBLoop less l pv c b c
    let c1 := retCLoop less l pv b1 c c
    if b1 ≥ c1 then (l, b1, c1)
    else partLoopGo less pv (lswap l b1 (c1 - 1)) (b1 + 1) (c1 - 1) k

/-- doPivot's protect loop (package sort): retreat `b` over elements
equal to the pivot, advance `a` over elements below it, stop when they
meet, otherwise `data.Swap(a, b-1); a++; b--`. -/
def protectLoopGo {α : Type} [Inhabited α] (less : α → α → Bool) (pv : Nat) :
    List α → Nat → Nat → Nat → List α × Nat × Nat
  | l, a, b, 0 => (l, a, b)
  | l, a, b, k + 1 =>
    let b1 := retBLoop less l pv a b b
    let a1 := advALoop less l pv b1 a b1
    if a1 ≥ b1 then (l, a1, b1)
    else protectLoopGo less pv (lswap l a1 (b1 - 1)) (a1 + 1) (b1 - 1) k

/-- doPivot(data, lo, hi) from package sort, returning the list state
and `(midlo, midhi)`. -/
def doPivotGo {α : Type} [Inhabited α] (less : α → α → Bool)
    (l : List α) (lo hi : Nat) : List α × Nat × Nat :=
  let m := lo + (hi - lo) / 2
  let l1 :=
    if hi - lo > 40 then
      let s := (hi - lo) / 8
      let la := medianOfThreeGo less l lo (lo + s) (lo + 2 * s)
      let lb := medianOfThreeGo less la m (m - s) (m + s)
      medianOfThreeGo less lb (hi - 1) (hi - 1 - s) (hi - 1 - 2 * s)
    else l
  let l2 := medianOfThreeGo less l1 lo m (hi - 1)
  let pv := lo
  let a0 := advALoop less l2 pv (hi - 1) (lo + 1) (hi - 1)
  let part := partLoopGo less pv l2 a0 (hi - 1) hi
  let l3 := part.1
  let b0 := part.2.1
  let c0 := part.2.2
  let protect0 : Bool := decide (hi - c0 < 5)
  let st : List α × Nat × Nat × Bool :=
    if ¬ protect0 ∧ hi - c0 < (hi - lo) / 4 then
      let s1 :=
        if ¬ less (lget l3 pv) (lget l3 (hi - 1)) then
          (lswap l3 c0 (hi - 1), c0 + 1, 1)
        else (l3, c0, 0)
      let s2 :=
        if ¬ less (lget s1.1 (b0 - 1)) (lget s1.1 pv) then
          (s1.1, b0 - 1, s1.2.2 + 1)
        else (s1.1, b0, s1.2.2)
      let s3 :=
        if ¬ less (lget s2.1 m) (lget s2.1 pv) then
          (lswap s2.1 m (s2.2.1 - 1), s2.2.1 - 1, s2.2.2 + 1)
        else (s2.1, s2.2.1, s2.2.2)
      (s3.1, s3.2.1, s1.2.1, decide (s3.2.2 > 1))
    else (l3, b0, c0, protect0)
  let l4 := st.1
  let b1 := st.2.1
  let c1 := st.2.2.1
  let final :=
    if st.2.2.2 then protectLoopGo less pv l4 a0 b1 b1
    else (l4, a0, b1)
  let l5 := final.1
  let b2 := final.2.2
  (lswap l5 pv (b2 - 1), b2 - 1, c1)

/-- siftDown's loop (package sort): descend from `root`, picking the
larger child, stopping when the heap property holds or the child is
out of range. -/
def siftDownLoop {α : Type} [Inhabited α] (less : α → α → Bool)
    (first hi : Nat) : List α → Nat → Nat → List α
  | l, _, 0 => l
  | l, root, k + 1 =>
    let child := 2 * root + 1
    if child ≥ hi then l
    else
      let child1 :=
        if child + 1 < hi ∧ less (lget l (first + child)) (lget l (first + child + 1))
        then child + 1 else child
      if ¬ less (lget l (first + root)) (lget l (first + child1)) then l
      else siftDownLoop less first hi (lswap l (first + root) (first + child1)) child1 k

/-- siftDown(data, lo, hi, first) from package sort. -/
def siftDownGo {α : Type} [Inhabited α] (less : α → α → Bool)
    (l : List α) (lo hi first : Nat) : List α :=
  siftDownLoop less first hi l lo hi

/-- heapSort's build loop (package sort):
`for i := (hi-1)/2; i >= 0; i-- { siftDown(data, i, hi, first) }`,
translated as a countdown from the initial `i`. -/
def heapBuildLoop {α : Type} [Inhabited α] (less : α → α → Bool)
    (hi first : Nat) : List α → Nat → List α
  | l, 0 => siftDownGo less l 0 hi first
  | l, i + 1 => heapBuildLoop less hi first (siftDownGo less l (i + 1) hi first) i

/-- heapSort's pop loop (package sort):
`for i := hi-1; i >= 0; i-- { data.Swap(first, first+i); siftDown(data, lo, i, first) }`. -/
def heapPopLoop {α : Type} [Inhabited α] (less : α → α → Bool)
    (first : Nat) : List α → Nat → List α
  | l, 0 => siftDownGo less (lswap l first (first + 0)) 0 0 first
  | l, i + 1 =>
    heapPopLoop less first
      (siftDownGo less (lswap l first (first + (i + 1))) 0 (i + 1) first) i

/-- heapSort(data, a, b) from package sort.  Go's `int` loop indices
run while `i >= 0`; with `Nat` counters the two loops are entered only
when `hi > 0` (for `hi = 0` neither loop of the source runs). -/
def heapSortGo {α : Type} [Inhabited α] (less : α → α → Bool)
    (l : List α) (a b : Nat) : List α :=
  let first := a
  let hi := b - a
  if hi = 0 then l
  else heapPopLoop less first (heapBuildLoop less hi first l ((hi - 1) / 2)) (hi - 1)

/-- quickSort(data, a, b, maxDepth) from package sort.  The source's
`for b-a > 12` loop with `maxDepth--` per iteration is recursion on
`maxDepth`; both the explicit recursive call and the loop continuation
proceed with the decremented depth.  Ranges of at most 12 elements get
the gap-6 Shell pass followed by insertionSort. -/
def quickSortGo {α : Type} [Inhabited α] (less : α → α → Bool) :
    Nat → List α → Nat → Nat → List α
  | 0, l, a, b =>
    if b - a > 12 then heapSortGo less l a b
    else if b - a > 1 then insertionSortGo less (shellLoopGo less b l (a + 6) b) a b
    else l
  | d + 1, l, a, b =>
    if b - a > 12 then
      let res := doPivotGo less l a b
      let l1 := res.1
      let mlo := res.2.1
      let mhi := res.2.2
      if mlo - a < b - mhi then
        quickSortGo less d (quickSortGo less d l1 a mlo) mhi b
      else
        quickSortGo less d (quickSortGo less d l1 mhi b) a mlo
    else if b - a > 1 then insertionSortGo less (shellLoopGo less b l (a + 6) b) a b
    else l

/-- maxDepth's loop (package sort):
`for i := n; i > 0; i >>= 1 { depth++ }`; `n` bounds the trip count. -/
def maxDepthLoop : Nat → Nat → Nat
  | _, 0 => 0
  | i, k + 1 => if i > 0 then 1 + maxDepthLoop (i >>> 1) k else 0

/-- maxDepth(n) from package sort: `2 * (number of bits of n)`. -/
def maxDepthGo (n : Nat) : Nat := 2 * maxDepthLoop n n

/-- sort.Slice(slice, less): `quickSort(lessSwap, 0, length, maxDepth(length))`. -/
def sortSliceGo {α : Type} [Inhabited α] (less : α → α → Bool) (l : List α) :
    List α :=
  quickSortGo less (maxDepthGo l.length) l 0 l.length

/-- The ranking comparator of softstat.go:
`func(i, j int) bool { return out[i].bound.p > out[j].bound.p }`. -/
def rankLess (a b : OutputEntry) : Bool := a.bound.p > b.bound.p

/-- The ranking step of softstat.go:
`sort.Slice(out, func(i, j int) bool { return out[i].bound.p > out[j].bound.p })`. -/
def rank (out : List OutputEntry) : List OutputEntry := sortSliceGo rankLess out

/-! ## Specification-side helpers and concrete inputs for the theorems -/

/-- Two metrics with equal percentages (1/2 and 2/4, both 50%), A first. -/
def exAB : List Metric := [⟨"A", ⟨1, 2⟩⟩, ⟨"B", ⟨2, 4⟩⟩]

/-- Two metrics with distinct percentages (50% and 75%). -/
def exCD : List Metric := [⟨"C", ⟨1, 2⟩⟩, ⟨"D", ⟨3, 4⟩⟩]

/-- A metric whose usage exceeds its ceiling (5 of 2, i.e. 250%). -/
def mOver : Metric := ⟨"fds-rlim", ⟨5, 2⟩⟩

/-! ## Basic facts about the percentage computation -/

theorem pct_nonneg (e : Entry) : 0 ≤ pct e := by
  unfold pct
  split
  · norm_num
  · positivity

theorem pct_of_pos (e : Entry) (h : 0 < e.max) :
    pct e = 100 * (e.v : ℚ) / (e.max : ℚ) := by
  unfold pct
  rw [if_neg (by omega)]

theorem calcStep_p (b : Boundary) (x : Metric) :
    (calcStep b x).p = max b.p (pct x.res) := by
  unfold calcStep
  split
  · next h => simp [boundOf, max_eq_right (le_of_lt h)]
  · next h => simp [max_eq_left (not_lt.1 h)]

theorem foldl_calcStep_p (m : List Metric) :
    ∀ b : Boundary,
      (m.foldl calcStep b).p = m.foldl (fun q x => max q (pct x.res)) b.p := by
  induction m with
  | nil => intro b; rfl
  | cons x xs ih =>
    intro b
    simp only [List.foldl_cons]
    rw [ih, calcStep_p]

theorem init_le_foldl_pct (m : List Metric) :
    ∀ q : ℚ, q ≤ m.foldl (fun q x => max q (pct x.res)) q := by
  induction m with
  | nil => intro q; exact le_refl q
  | cons x xs ih =>
    intro q
    simp only [List.foldl_cons]
    exact le_trans (le_max_left _ _) (ih _)

theorem pct_le_foldl (m : List Metric) :
    ∀ (q : ℚ) (x : Metric), x ∈ m →
      pct x.res ≤ m.foldl (fun q y => max q (pct y.res)) q := by
  induction m with
  | nil => intro q x hx; cases hx
  | cons y ys ih =>
    intro q x hx
    simp only [List.foldl_cons]
    rcases List.mem_cons.1 hx with h | h
    · subst h
      exact le_trans (le_max_right _ _) (init_le_foldl_pct ys _)
    · exact ih _ x h

theorem foldl_pct_le (m : List Metric) :
    ∀ q P : ℚ, q ≤ P → (∀ x ∈ m, pct x.res ≤ P) →
      m.foldl (fun q y => max q (pct y.res)) q ≤ P := by
  induction m with
  | nil => intro q P hq _; exact hq
  | cons y ys ih =>
    intro q P hq h
    simp only [List.foldl_cons]
    exact ih _ P (max_le hq (h y (List.mem_cons_self y ys)))
      (fun x hx => h x (List.mem_cons_of_mem _ hx))

theorem foldl_calcStep_no_update (m : List Metric) :
    ∀ b : Boundary, (∀ x ∈ m, pct x.res ≤ b.p) → m.foldl calcStep b = b := by
  induction m with
  | nil => intro b _; rfl
  | cons x xs ih =>
    intro b h
    simp only [List.foldl_cons]
    have hx : calcStep b x = b := by
      unfold calcStep
      rw [if_neg (not_lt.2 (h x (List.mem_cons_self x xs)))]
    rw [hx]
    exact ih b (fun y hy => h y (List.mem_cons_of_mem _ hy))

theorem foldl_calcStep_argmax (m : List Metric) :
    ∀ b : Boundary, (∃ x ∈ m, b.p < pct x.res) →
      ∃ i, ∃ h : i < m.length,
        m.foldl calcStep b = boundOf (m.get ⟨i, h⟩) ∧
        b.p < pct (m.get ⟨i, h⟩).res ∧
        ∀ j (hj : j < m.length), j < i →
          pct (m.get ⟨j, hj⟩).res < pct (m.get ⟨i, h⟩).res := by
  induction m with
  | nil => intro b hb; obtain ⟨x, hx, _⟩ := hb; cases hx
  | cons x xs ih =>
    intro b hb
    simp only [List.foldl_cons]
    by_cases hx : b.p < pct x.res
    · have hstep : calcStep b x = boundOf x := by
        unfold calcStep; rw [if_pos hx]
      rw [hstep]
      by_cases hy : ∃ y ∈ xs, pct x.res < pct y.res
      · have hb' : ∃ y ∈ xs, (boundOf x).p < pct y.res := by
          obtain ⟨y, hmem, hlt⟩ := hy
          exact ⟨y, hmem, by simpa [boundOf] using hlt⟩
        obtain ⟨i, hi, heq, hgt, hstrict⟩ := ih (boundOf x) hb'
        have hgt' : pct x.res < pct (xs.get ⟨i, hi⟩).res := by
          simpa [boundOf] using hgt
        refine ⟨i + 1, Nat.succ_lt_succ hi, ?_, ?_, ?_⟩
        · simpa using heq
        · simpa using lt_trans hx hgt'
        · intro j hj hji
          cases j with
          | zero => simpa using hgt'
          | succ j' =>
            have hj' : j' < xs.length := Nat.lt_of_succ_lt_succ hj
            simpa using hstrict j' hj' (Nat.lt_of_succ_lt_succ hji)
      · push_neg at hy
        have hstop : xs.foldl calcStep (boundOf x) = boundOf x :=
          foldl_calcStep_no_update xs (boundOf x)
            (fun y hmem => by simpa [boundOf] using hy y hmem)
        refine ⟨0, Nat.succ_pos _, ?_, ?_, ?_⟩
        · simpa using hstop
        · simpa using hx
        · intro j hj hji; omega
    · have hstep : calcStep b x = b := by
        unfold calcStep; rw [if_neg hx]
      rw [hstep]
      obtain ⟨y, hmem, hlt⟩ := hb
      rcases List.mem_cons.1 hmem with h | h
      · exact absurd (h ▸ hlt) hx
      · obtain ⟨i, hi, heq, hgt, hstrict⟩ := ih b ⟨y, h, hlt⟩
        refine ⟨i + 1, Nat.succ_lt_succ hi, ?_, ?_, ?_⟩
        · simpa using heq
        · simpa using hgt
        · intro j hj hji
          cases j with
          | zero =>
            have : pct x.res ≤ b.p := not_lt.1 hx
            have h2 : b.p < pct (xs.get ⟨i, hi⟩).res := hgt
            simpa using lt_of_le_of_lt this h2
          | succ j' =>
            have hj' : j' < xs.length := Nat.lt_of_succ_lt_succ hj
            simpa using hstrict j' hj' (Nat.lt_of_succ_lt_succ hji)

/-! ## Claims about the percentage computation -/

/-- Claim C1, counterexample: with the ceiling equal to the unlimited
sentinel, CalcBound's percentage is not 0; at value 2^63 it is about 50
(the sentinel is divided like any concrete ceiling, in the source as
`100.0 * float64(v) / float64(max)`). -/
theorem pct_unlimited_cex : pct ⟨9223372036854775808, UNLIMITED⟩ ≠ 0 := by
  rw [pct_of_pos ⟨9223372036854775808, UNLIMITED⟩ (by norm_num [UNLIMITED])]
  norm_num [UNLIMITED]

/-- Claim C1, amended: for a ResourceSample whose ceiling is the
unlimited sentinel, the percentage computed inside CalcBound is
`100 * value / sentinel` — the sentinel is treated like any concrete
ceiling — and it is 0 exactly when the value is 0. -/
theorem pct_unlimited_amended (v : Nat) :
    pct ⟨v, UNLIMITED⟩ = 100 * (v : ℚ) / (UNLIMITED : ℚ) ∧
    (pct ⟨v, UNLIMITED⟩ = 0 ↔ v = 0) := by
  have h : pct ⟨v, UNLIMITED⟩ = 100 * (v : ℚ) / (UNLIMITED : ℚ) :=
    pct_of_pos _ (by norm_num [UNLIMITED])
  refine ⟨h, ?_⟩
  rw [h, div_eq_zero_iff]
  constructor
  · rintro (h1 | h2)
    · have := mul_eq_zero.1 h1
      rcases this with h3 | h3
      · norm_num at h3
      · exact_mod_cast h3
    · exfalso; norm_num [UNLIMITED] at h2
  · rintro rfl; norm_num

/-- Claim C2, counterexample: CalcBound on the empty metric sequence
does not fail; it returns the zero Boundary with percentage -1 (the
source has no error path at all). -/
theorem calcBound_empty_cex : CalcBound [] = ⟨"", 0, 0, -1⟩ := rfl

/-- Claim C2, amended: CalcBound is total; on the empty sequence it
returns the zero Boundary with percentage -1 instead of failing, and
percentage -1 occurs exactly on the empty sequence. -/
theorem calcBound_empty_amended (m : List Metric) :
    (CalcBound m).p = -1 ↔ m = [] := by
  constructor
  · intro h
    by_contra hne
    obtain ⟨x, hx⟩ := List.exists_mem_of_ne_nil m hne
    have h1 : pct x.res ≤ (CalcBound m).p := by
      rw [CalcBound, foldl_calcStep_p]
      exact pct_le_foldl m _ x hx
    have h2 : (0 : ℚ) ≤ (CalcBound m).p := le_trans (pct_nonneg x.res) h1
    rw [h] at h2
    norm_num at h2
  · rintro rfl; rfl

/-- Claim C5, counterexample: for value 0 and ceiling 0 the percentage
computed inside CalcBound is 100, not 0 (the `max <= 0` branch of the
source treats a zero ceiling as fully saturated). -/
theorem pct_zero_zero_cex : pct ⟨0, 0⟩ = 100 ∧ pct ⟨0, 0⟩ ≠ 0 := by
  constructor
  · rfl
  · intro h
    have : (100 : ℚ) = 0 := by rw [← h]; rfl
    norm_num at this

/-- Claim C5, amended: for every ResourceSample with ceiling 0 (any
value, in particular value 0), the percentage computed inside CalcBound
is 100; there is no division-by-zero failure because the zero-ceiling
branch never divides. -/
theorem pct_zero_ceiling_amended (v : Nat) : pct ⟨v, 0⟩ = 100 := rfl

/-- Claim C9: for value > 0 and a concrete ceiling > 0 the percentage
computed inside CalcBound is exactly 100 * value / ceiling (the float64
arithmetic of the source is modelled by exact rationals), and for a
fixed ceiling it is strictly monotone in the value. -/
theorem pct_formula_monotone (v c : Nat) (hv : 0 < v) (hc : 0 < c) :
    pct ⟨v, c⟩ = 100 * (v : ℚ) / (c : ℚ) ∧
    ∀ w : Nat, v < w → pct ⟨v, c⟩ < pct ⟨w, c⟩ := by
  have hcq : (0 : ℚ) < (c : ℚ) := by exact_mod_cast hc
  refine ⟨pct_of_pos _ hc, ?_⟩
  intro w hw
  rw [pct_of_pos _ hc, pct_of_pos _ hc]
  rw [div_lt_div_iff_of_pos_right hcq]
  have : (v : ℚ) < (w : ℚ) := by exact_mod_cast hw
  linarith

/-- Witness for pct_formula_monotone at value 1, ceiling 2, larger value 3. -/
theorem pct_formula_monotone_witness :
    0 < 1 ∧ 0 < 2 ∧
    (pct ⟨1, 2⟩ = 100 * ((1 : Nat) : ℚ) / ((2 : Nat) : ℚ) ∧
      ∀ w : Nat, 1 < w → pct ⟨1, 2⟩ < pct ⟨w, 2⟩) :=
  ⟨Nat.one_pos, Nat.zero_lt_two, pct_formula_monotone 1 2 Nat.one_pos Nat.zero_lt_two⟩

/-! ## Claims about CalcBound's selection -/

/-- Claim C10: for every non-empty metric sequence, CalcBound returns
the Boundary built from the first metric (in input order) attaining the
maximal percentage: its percentage bounds every metric's percentage
from above, its fields are copied from that metric, and every earlier
metric has a strictly smaller percentage. -/
theorem calcBound_attains_max (m : List Metric) (hm : m ≠ []) :
    ∃ i, ∃ h : i < m.length,
      CalcBound m = boundOf (m.get ⟨i, h⟩) ∧
      (∀ x ∈ m, pct x.res ≤ (CalcBound m).p) ∧
      ∀ j (hj : j < m.length), j < i →
        pct (m.get ⟨j, hj⟩).res < pct (m.get ⟨i, h⟩).res := by
  obtain ⟨x, hx⟩ := List.exists_mem_of_ne_nil m hm
  have hex : ∃ y ∈ m, (Boundary.mk "" 0 0 (-1)).p < pct y.res :=
    ⟨x, hx, lt_of_lt_of_le (by norm_num) (pct_nonneg x.res)⟩
  obtain ⟨i, hi, heq, _, hstrict⟩ := foldl_calcStep_argmax m _ hex
  refine ⟨i, hi, ?_, ?_, hstrict⟩
  · rw [CalcBound]; exact heq
  · intro y hy
    rw [CalcBound, foldl_calcStep_p]
    exact pct_le_foldl m _ y hy

/-- Witness for calcBound_attains_max on two metrics at 50% and 75%. -/
theorem calcBound_attains_max_witness :
    exCD ≠ [] ∧
    ∃ i, ∃ h : i < exCD.length,
      CalcBound exCD = boundOf (exCD.get ⟨i, h⟩) ∧
      (∀ x ∈ exCD, pct x.res ≤ (CalcBound exCD).p) ∧
      ∀ j (hj : j < exCD.length), j < i →
        pct (exCD.get ⟨j, hj⟩).res < pct (exCD.get ⟨i, h⟩).res :=
  ⟨by simp [exCD], calcBound_attains_max exCD (by simp [exCD])⟩

/-- Claim C3: CalcBound scans once with strict greater-than, so when a
metric at position i and a later metric at position j have equal,
maximal percentages, the returned Boundary is built from the first
metric attaining that percentage — a position k at or before i, never
the later j. -/
theorem calcBound_tie_first (m : List Metric) (i j : Nat)
    (hi : i < m.length) (hj : j < m.length) (hij : i < j)
    (heq : pct (m.get ⟨i, hi⟩).res = pct (m.get ⟨j, hj⟩).res)
    (hmax : ∀ x ∈ m, pct x.res ≤ pct (m.get ⟨i, hi⟩).res) :
    ∃ k, ∃ hk : k < m.length, k ≤ i ∧
      CalcBound m = boundOf (m.get ⟨k, hk⟩) ∧
      pct (m.get ⟨k, hk⟩).res = pct (m.get ⟨i, hi⟩).res := by
  have hex : ∃ y ∈ m, (Boundary.mk "" 0 0 (-1)).p < pct y.res :=
    ⟨m.get ⟨i, hi⟩, List.get_mem m i hi,
      lt_of_lt_of_le (by norm_num) (pct_nonneg _)⟩
  obtain ⟨k, hk, heqk, _, hstrict⟩ := foldl_calcStep_argmax m _ hex
  have hle : pct (m.get ⟨k, hk⟩).res ≤ pct (m.get ⟨i, hi⟩).res :=
    hmax _ (List.get_mem m k hk)
  have hge : pct (m.get ⟨i, hi⟩).res ≤ pct (m.get ⟨k, hk⟩).res := by
    have h1 : pct (m.get ⟨i, hi⟩).res ≤ (m.foldl calcStep ⟨"", 0, 0, -1⟩).p := by
      rw [foldl_calcStep_p]
      exact pct_le_foldl m _ _ (List.get_mem m i hi)
    rw [heqk] at h1
    simpa [boundOf] using h1
  have hkeq : pct (m.get ⟨k, hk⟩).res = pct (m.get ⟨i, hi⟩).res :=
    le_antisymm hle hge
  have hki : k ≤ i := by
    by_contra hcon
    push_neg at hcon
    have := hstrict i hi hcon
    rw [hkeq] at this
    exact lt_irrefl _ this
  exact ⟨k, hk, hki, by rw [CalcBound]; exact heqk, hkeq⟩

/-- Witness for calcBound_tie_first: metrics A then B, both at 50%;
the binding constraint is built from a position at or before A's. -/
theorem calcBound_tie_first_witness :
    (0 : Nat) < 1 ∧
    pct (exAB.get ⟨0, by decide⟩).res = pct (exAB.get ⟨1, by decide⟩).res ∧
    (∀ x ∈ exAB, pct x.res ≤ pct (exAB.get ⟨0, by decide⟩).res) ∧
    ∃ k, ∃ hk : k < exAB.length, k ≤ 0 ∧
      CalcBound exAB = boundOf (exAB.get ⟨k, hk⟩) ∧
      pct (exAB.get ⟨k, hk⟩).res = pct (exAB.get ⟨0, by decide⟩).res :=
  ⟨Nat.zero_lt_one, by norm_num [exAB, pct],
    by
      intro x hx
      simp only [exAB, List.mem_cons, List.not_mem_nil, or_false] at hx
      rcases hx with rfl | rfl <;> norm_num [exAB, pct],
    calcBound_tie_first exAB 0 1 (by decide) (by decide) Nat.zero_lt_one
      (by norm_num [exAB, pct])
      (by
        intro x hx
        simp only [exAB, List.mem_cons, List.not_mem_nil, or_false] at hx
        rcases hx with rfl | rfl <;> norm_num [exAB, pct])⟩

/-! ## Claims about effective-ceiling resolution -/

theorem resolve_cons (c d : Nat) (cs : List Nat) :
    resolveEffectiveCeiling c (d :: cs) = resolveEffectiveCeiling (minGo c d) cs := rfl

theorem minGo_eq_min (a b : Nat) : minGo a b = min a b := by
  unfold minGo; split <;> omega

theorem minGo_le_left (a b : Nat) : minGo a b ≤ a := by
  unfold minGo; split <;> omega

theorem minGo_le_right (a b : Nat) : minGo a b ≤ b := by
  unfold minGo; split <;> omega

theorem resolve_le_init (cs : List Nat) : ∀ c, resolveEffectiveCeiling c cs ≤ c := by
  induction cs with
  | nil => intro c; exact le_refl c
  | cons d cs ih =>
    intro c
    rw [resolve_cons]
    exact le_trans (ih (minGo c d)) (minGo_le_left c d)

theorem resolve_le (cs : List Nat) :
    ∀ c x, x ∈ c :: cs → resolveEffectiveCeiling c cs ≤ x := by
  induction cs with
  | nil =>
    intro c x hx
    rcases List.mem_cons.1 hx with rfl | h
    · exact le_refl x
    · cases h
  | cons d cs ih =>
    intro c x hx
    rw [resolve_cons]
    rcases List.mem_cons.1 hx with rfl | h
    · exact le_trans (resolve_le_init cs (minGo x d)) (minGo_le_left x d)
    · rcases List.mem_cons.1 h with rfl | h2
      · exact le_trans (resolve_le_init cs (minGo c x)) (minGo_le_right c x)
      · exact ih (minGo c d) x (List.mem_cons_of_mem _ h2)

theorem resolve_mem (cs : List Nat) :
    ∀ c, resolveEffectiveCeiling c cs ∈ c :: cs := by
  induction cs with
  | nil => intro c; exact List.mem_cons_self c []
  | cons d cs ih =>
    intro c
    rw [resolve_cons]
    rcases List.mem_cons.1 (ih (minGo c d)) with he | hm
    · rw [he]
      unfold minGo
      split
      · exact List.mem_cons_self _ _
      · exact List.mem_cons_of_mem _ (List.mem_cons_self _ _)
    · exact List.mem_cons_of_mem _ (List.mem_cons_of_mem _ hm)

/-- Claim C6: the source's binary uint64 `min` is commutative and
associative; folded over a ceiling sequence (all uint64, hence at most
the sentinel) it yields the sentinel exactly when every input is the
sentinel, and when some concrete (non-sentinel) input exists it yields
the minimum, which is itself concrete. -/
theorem minGo_comm_assoc_sentinel :
    (∀ a b, minGo a b = minGo b a) ∧
    (∀ a b c, minGo (minGo a b) c = minGo a (minGo b c)) ∧
    (∀ (c : Nat) (cs : List Nat), (∀ x ∈ c :: cs, x ≤ UNLIMITED) →
      ((resolveEffectiveCeiling c cs = UNLIMITED ↔ ∀ x ∈ c :: cs, x = UNLIMITED) ∧
        ((∃ x ∈ c :: cs, x ≠ UNLIMITED) →
          resolveEffectiveCeiling c cs ∈ c :: cs ∧
          resolveEffectiveCeiling c cs ≠ UNLIMITED ∧
          ∀ x ∈ c :: cs, resolveEffectiveCeiling c cs ≤ x))) := by
  refine ⟨?_, ?_, ?_⟩
  · intro a b; rw [minGo_eq_min, minGo_eq_min, Nat.min_comm]
  · intro a b c; simp only [minGo_eq_min]; exact Nat.min_assoc a b c
  · intro c cs hbound
    constructor
    · constructor
      · intro h x hx
        have h1 := resolve_le cs c x hx
        rw [h] at h1
        exact le_antisymm (hbound x hx) h1
      · intro h
        exact h _ (resolve_mem cs c)
    · rintro ⟨x, hx, hne⟩
      refine ⟨resolve_mem cs c, ?_, fun y hy => resolve_le cs c y hy⟩
      intro he
      have h1 := resolve_le cs c x hx
      rw [he] at h1
      exact hne (le_antisymm (hbound x hx) h1)

/-- Witness for minGo_comm_assoc_sentinel on ceilings sentinel and 1024. -/
theorem minGo_comm_assoc_sentinel_witness :
    (∀ x ∈ [UNLIMITED, 1024], x ≤ UNLIMITED) ∧
    ((resolveEffectiveCeiling UNLIMITED [1024] = UNLIMITED ↔
        ∀ x ∈ [UNLIMITED, 1024], x = UNLIMITED) ∧
      ((∃ x ∈ [UNLIMITED, 1024], x ≠ UNLIMITED) →
        resolveEffectiveCeiling UNLIMITED [1024] ∈ [UNLIMITED, 1024] ∧
        resolveEffectiveCeiling UNLIMITED [1024] ≠ UNLIMITED ∧
        ∀ x ∈ [UNLIMITED, 1024], resolveEffectiveCeiling UNLIMITED [1024] ≤ x)) :=
  ⟨by decide, minGo_comm_assoc_sentinel.2.2 UNLIMITED [1024] (by decide)⟩

/-- Claim C7: for a file-descriptor ceiling equal to the sentinel but a
concrete per-process ceiling 1024, the resolved effective ceiling is
1024; and in general, for positive ceilings, the percentage of the
minimal (resolved) ceiling equals the binding percentage CalcBound
finds over one metric per ceiling — min-then-divide refines
max-over-separate-metrics. -/
theorem effective_ceiling_refines :
    resolveEffectiveCeiling UNLIMITED [1024] = 1024 ∧
    ∀ (v : Nat) (s : String) (c : Nat) (cs : List Nat),
      (∀ x ∈ c :: cs, 0 < x) →
      (CalcBound ((c :: cs).map (fun d => ⟨s, ⟨v, d⟩⟩))).p
        = pct ⟨v, resolveEffectiveCeiling c cs⟩ := by
  constructor
  · decide
  · intro v s c cs hpos
    have hMmem : resolveEffectiveCeiling c cs ∈ c :: cs := resolve_mem cs c
    have hMpos : 0 < resolveEffectiveCeiling c cs := hpos _ hMmem
    have hanti : ∀ d ∈ c :: cs, pct ⟨v, d⟩ ≤ pct ⟨v, resolveEffectiveCeiling c cs⟩ := by
      intro d hd
      have hdpos : 0 < d := hpos d hd
      have hMd : resolveEffectiveCeiling c cs ≤ d := resolve_le cs c d hd
      rw [pct_of_pos _ hdpos, pct_of_pos _ hMpos]
      have hq1 : (0:ℚ) < (resolveEffectiveCeiling c cs : ℚ) := by exact_mod_cast hMpos
      have hq2 : ((resolveEffectiveCeiling c cs : Nat) : ℚ) ≤ (d : ℚ) := by
        exact_mod_cast hMd
      gcongr
    apply le_antisymm
    · rw [CalcBound, foldl_calcStep_p]
      apply foldl_pct_le
      · exact le_trans (by norm_num) (pct_nonneg ⟨v, resolveEffectiveCeiling c cs⟩)
      · intro x hx
        obtain ⟨d, hd, rfl⟩ := List.mem_map.1 hx
        exact hanti d hd
    · rw [CalcBound, foldl_calcStep_p]
      have hmem : (⟨s, ⟨v, resolveEffectiveCeiling c cs⟩⟩ : Metric)
          ∈ (c :: cs).map (fun d => ⟨s, ⟨v, d⟩⟩) :=
        List.mem_map_of_mem _ hMmem
      exact pct_le_foldl _ _ _ hmem

/-- Witness for effective_ceiling_refines: value 4, ceilings sentinel
and 1024; the binding percentage equals the percentage at ceiling 1024. -/
theorem effective_ceiling_refines_witness :
    (∀ x ∈ [UNLIMITED, 1024], 0 < x) ∧
    (CalcBound ([UNLIMITED, 1024].map
        (fun d => (⟨"fds-rlim", ⟨4, d⟩⟩ : Metric)))).p
      = pct ⟨4, resolveEffectiveCeiling UNLIMITED [1024]⟩ :=
  ⟨by decide, effective_ceiling_refines.2 4 "fds-rlim" UNLIMITED [1024] (by decide)⟩

/-- Claim C8: percentages are not clamped at 100 for selection or for
ranking — a metric whose value exceeds its positive ceiling gets a
percentage above 100, CalcBound's selected percentage is then above 100
as well, and the ranking comparator reads `bound.p` directly (clamping,
if any, could happen only in the display layer, which in this revision
prints `bound.p` unchanged). -/
theorem no_upper_clamp :
    (∀ e : Entry, 0 < e.max → e.max < e.v → 100 < pct e) ∧
    (∀ (m : List Metric) (x : Metric), x ∈ m → 0 < x.res.max →
      x.res.max < x.res.v → 100 < (CalcBound m).p) ∧
    (∀ out : List OutputEntry, rank out = sortSliceGo rankLess out) ∧
    (∀ a b : OutputEntry, rankLess a b = decide (a.bound.p > b.bound.p)) := by
  have h1 : ∀ e : Entry, 0 < e.max → e.max < e.v → 100 < pct e := by
    intro e hpos hlt
    rw [pct_of_pos e hpos]
    have hc : (0:ℚ) < (e.max:ℚ) := by exact_mod_cast hpos
    rw [lt_div_iff₀ hc]
    have hq : (e.max:ℚ) < (e.v:ℚ) := by exact_mod_cast hlt
    nlinarith
  refine ⟨h1, ?_, fun _ => rfl, fun _ _ => rfl⟩
  intro m x hx hpos hlt
  have h2 : pct x.res ≤ (CalcBound m).p := by
    rw [CalcBound, foldl_calcStep_p]
    exact pct_le_foldl m _ x hx
  exact lt_of_lt_of_le (h1 x.res hpos hlt) h2

/-- Witness for no_upper_clamp: usage 5 of ceiling 2 gives 250%. -/
theorem no_upper_clamp_witness :
    (0 < (⟨5, 2⟩ : Entry).max ∧ (⟨5, 2⟩ : Entry).max < (⟨5, 2⟩ : Entry).v ∧
      100 < pct ⟨5, 2⟩) ∧
    (mOver ∈ [mOver] ∧ 0 < mOver.res.max ∧ mOver.res.max < mOver.res.v ∧
      100 < (CalcBound [mOver]).p) :=
  ⟨⟨by decide, by decide, no_upper_clamp.1 ⟨5, 2⟩ (by decide) (by decide)⟩,
    ⟨List.mem_singleton_self mOver, by decide, by decide,
      no_upper_clamp.2.1 [mOver] mOver (List.mem_singleton_self mOver)
        (by decide) (by decide)⟩⟩

/-! ## The ranking sort: permutation facts -/

theorem get_cons_set_perm {α : Type} (t : List α) :
    ∀ (j : Nat) (hj : j < t.length) (a : α),
      List.Perm (t.get ⟨j, hj⟩ :: t.set j a) (a :: t) := by
  induction t with
  | nil => intro j hj a; exact absurd hj (Nat.not_lt_zero j)
  | cons y t ih =>
    intro j hj a
    cases j with
    | zero =>
      simp only [List.get, List.set]
      exact List.Perm.swap a y t
    | succ j =>
      have hj' : j < t.length := Nat.lt_of_succ_lt_succ hj
      simp only [List.get, List.set]
      refine (List.Perm.swap _ _ _).trans ?_
      refine (List.Perm.cons y (ih j hj' a)).trans ?_
      exact List.Perm.swap _ _ _

theorem set_set_perm {α : Type} (l : List α) :
    ∀ (i j : Nat) (hi : i < l.length) (hj : j < l.length),
      List.Perm ((l.set i (l.get ⟨j, hj⟩)).set j (l.get ⟨i, hi⟩)) l := by
  induction l with
  | nil => intro i j hi _; exact absurd hi (Nat.not_lt_zero i)
  | cons a t ih =>
    intro i j hi hj
    cases i with
    | zero =>
      cases j with
      | zero =>
        simp only [List.get, List.set]
        exact List.Perm.refl _
      | succ j =>
        have hj' : j < t.length := Nat.lt_of_succ_lt_succ hj
        simp only [List.get, List.set]
        exact get_cons_set_perm t j hj' a
    | succ i =>
      have hi' : i < t.length := Nat.lt_of_succ_lt_succ hi
      cases j with
      | zero =>
        simp only [List.get, List.set]
        exact get_cons_set_perm t i hi' a
      | succ j =>
        have hj' : j < t.length := Nat.lt_of_succ_lt_succ hj
        simp only [List.get, List.set]
        exact List.Perm.cons a (ih i j hi' hj')

theorem lswap_perm {α : Type} (l : List α) (i j : Nat) :
    List.Perm (lswap l i j) l := by
  unfold lswap
  split
  · next h => exact set_set_perm l i j h.1 h.2
  · exact List.Perm.refl l

theorem sinkGo_perm {α : Type} [Inhabited α] (less : α → α → Bool) (a : Nat) :
    ∀ (j : Nat) (l : List α), List.Perm (sinkGo less a l j) l := by
  intro j
  induction j with
  | zero => intro l; exact List.Perm.refl l
  | succ j ih =>
    intro l
    simp only [sinkGo]
    split
    · exact (ih _).trans (lswap_perm l (j + 1) j)
    · exact List.Perm.refl l

theorem insertLoopGo_perm {α : Type} [Inhabited α] (less : α → α → Bool)
    (a b : Nat) : ∀ (k i : Nat) (l : List α),
      List.Perm (insertLoopGo less a b l i k) l := by
  intro k
  induction k with
  | zero => intro i l; exact List.Perm.refl l
  | succ k ih =>
    intro i l
    simp only [insertLoopGo]
    split
    · exact (ih _ _).trans (sinkGo_perm less a i l)
    · exact List.Perm.refl l

